import Mathlib

/-!
Shallow embedding of the RefereeBias repository's data pipeline.

Sources embedded:
- `src/data/dbscan_preprocessing.py` : `canonicalize_referee` and
  `create_ref_team_dataframe` (filter to top-6 matches, canonicalize referee
  names, retain top-30 referees by distinct-MatchID count, expand each match
  into per-side rows, group-and-sum by (Referee, Team), drop duplicate
  (Team, Fouls, YellowCards, RedCards) tuples, reindex over the Cartesian
  product of retained referees and the team allow-list with zero fill,
  standard-scale the numeric columns).
- `src/data/data_processing.py` : the module-level pruning pipeline
  (drop a fixed column list, then drop rows containing any null).

Tables are lists of records; pandas DataFrames become lists of rows, column
access becomes record fields, and possibly-absent numeric columns become
`Option Int` fields read with a default of 0 (mirroring `row.get(col, 0)`).
-/

/-! ## Python string primitives (ASCII), used by `canonicalize_referee` -/

/-- Python `str.lower()` (ASCII case mapping), char by char. -/
def pyLower (s : String) : String := ⟨s.data.map Char.toLower⟩

/-- Python `str.replace('.', '')`: remove every dot. -/
def removeDots (s : String) : String := ⟨s.data.filter (fun c => c ≠ '.')⟩

/-- Strip whitespace from the front and back of a character list. -/
def stripList (l : List Char) : List Char :=
  ((l.dropWhile Char.isWhitespace).reverse.dropWhile Char.isWhitespace).reverse

/-- Python `str.strip()`. -/
def pyStrip (s : String) : String := ⟨stripList s.data⟩

/-- Helper for `pyTitle`: the Boolean records whether the previous character
was alphabetic (i.e. whether we are inside a word). -/
def titleAux : Bool → List Char → List Char
  | _, [] => []
  | prevAlpha, c :: cs =>
    if c.isAlpha then
      (if prevAlpha then c.toLower else c.toUpper) :: titleAux true cs
    else
      c :: titleAux false cs

/-- Python `str.title()`: uppercase the first character of every alphabetic
run, lowercase the rest. -/
def pyTitle (s : String) : String := ⟨titleAux false s.data⟩

/-- Python `needle in hay` for strings: `needle` occurs as a contiguous run. -/
def containsRun (needle : List Char) : List Char → Bool
  | [] => needle.isEmpty
  | c :: cs => needle.isPrefixOf (c :: cs) || containsRun needle cs

/-! ## A structural stable sort (models the deterministic sorts of pandas) -/

/-- Insert `a` into a sorted list, before the first element it compares
less-or-equal to (stable: ties keep the inserted element first). -/
def insertBy (le : α → α → Bool) (a : α) : List α → List α
  | [] => [a]
  | b :: bs => if le a b then a :: b :: bs else b :: insertBy le a bs

/-- Stable insertion sort by a Boolean comparison. -/
def sortBy (le : α → α → Bool) : List α → List α
  | [] => []
  | a :: as => insertBy le a (sortBy le as)

/-- Strict lexicographic comparison of code-point lists (Python `<` on str). -/
def lexLtb : List Char → List Char → Bool
  | [], [] => false
  | [], _ :: _ => true
  | _ :: _, [] => false
  | a :: as, b :: bs => decide (a.toNat < b.toNat) || (a == b && lexLtb as bs)

/-- Non-strict lexicographic comparison of code-point lists. -/
def lexLeb (x y : List Char) : Bool := lexLtb x y || x == y

/-- Ascending comparison of referee names (the `groupby` key order). -/
def strLeb (a b : String) : Bool := lexLeb a.data b.data

/-- Ascending comparison of (Referee, Team) keys (the `groupby` key order). -/
def keyLeb (a b : String × String) : Bool :=
  lexLtb a.1.data b.1.data || (a.1 == b.1 && lexLeb a.2.data b.2.data)

/-- `canonicalize_referee` from `dbscan_preprocessing.py`:
lower-case, remove dots, strip; any name containing "wilkes" becomes
"Clive Wilkes"; otherwise title-case the cleaned name. -/
def canonicalize_referee (name : String) : String :=
  let name_clean := pyStrip (removeDots (pyLower name))
  if containsRun "wilkes".data name_clean.data then "Clive Wilkes"
  else pyTitle name_clean

/-! ## Data model -/

/-- One row of the processed per-match table (`processed.csv`).  The numeric
per-side columns are `Option Int`: `none` models an absent column, read by the
source with `row.get(col, 0)`. -/
structure MatchRecord where
  matchID : Nat
  homeTeam : String
  awayTeam : String
  referee : String
  homeFouls : Option Int
  homeYellow : Option Int
  homeRed : Option Int
  awayFouls : Option Int
  awayYellow : Option Int
  awayRed : Option Int
deriving DecidableEq, Repr

/-- One row of the expanded / aggregated / reindexed table:
(Referee, Team, Fouls, YellowCards, RedCards). -/
structure StatRow where
  referee : String
  team : String
  fouls : Int
  yellow : Int
  red : Int
deriving DecidableEq, Repr

/-- The grouping key of a stat row: the (Referee, Team) pair. -/
def key (r : StatRow) : String × String := (r.referee, r.team)

/-- The duplicate-detection key of step 7 of the source:
the (Team, Fouls, YellowCards, RedCards) tuple. -/
def dkey (r : StatRow) : String × Int × Int × Int := (r.team, r.fouls, r.yellow, r.red)

/-! ## Pipeline stages of `create_ref_team_dataframe` -/

/-- The canonical referee name of a match row (column `Referee_Canonical`). -/
def canonRef (m : MatchRecord) : String := canonicalize_referee m.referee

/-- Step 1: keep matches where HomeTeam or AwayTeam is in the allow-list. -/
def filterTop6 (top6 : List String) (ms : List MatchRecord) : List MatchRecord :=
  ms.filter (fun m => top6.contains m.homeTeam || top6.contains m.awayTeam)

/-- The distinct canonical referee names of a match list, in the ascending
name order that `groupby('Referee_Canonical')` produces. -/
def distinctRefs (ms : List MatchRecord) : List String :=
  sortBy strLeb ((ms.map canonRef).dedup)

/-- `GameCount` of a canonical referee: number of distinct MatchIDs among the
matches it officiated. -/
def gameCount (ms : List MatchRecord) (r : String) : Nat :=
  (((ms.filter (fun m => decide (canonRef m = r))).map (fun m => m.matchID)).dedup).length

/-- Steps 3–4 selector: referees sorted by `GameCount` descending, top 30 kept
(`sort_values(ascending=False).head(30)`). -/
def topRefs (ms : List MatchRecord) : List String :=
  (sortBy (fun a b => decide (gameCount ms b ≤ gameCount ms a)) (distinctRefs ms)).take 30

/-- The home-side derived row of a match: referee, HomeTeam, and the home
numeric columns read with `row.get(col, 0)`. -/
def homeRow (m : MatchRecord) : StatRow :=
  ⟨canonRef m, m.homeTeam, m.homeFouls.getD 0, m.homeYellow.getD 0, m.homeRed.getD 0⟩

/-- The away-side derived row of a match: referee, AwayTeam, and the away
numeric columns read with `row.get(col, 0)`. -/
def awayRow (m : MatchRecord) : StatRow :=
  ⟨canonRef m, m.awayTeam, m.awayFouls.getD 0, m.awayYellow.getD 0, m.awayRed.getD 0⟩

/-- Step 5, one match: the home-side row if HomeTeam is allow-listed, then the
away-side row if AwayTeam is allow-listed. -/
def expandMatch (top6 : List String) (m : MatchRecord) : List StatRow :=
  (if top6.contains m.homeTeam then [homeRow m] else []) ++
  (if top6.contains m.awayTeam then [awayRow m] else [])

/-- Step 5: the row-append loop over all retained matches, in order. -/
def expandRows (top6 : List String) : List MatchRecord → List StatRow
  | [] => []
  | m :: ms => expandMatch top6 m ++ expandRows top6 ms

/-- The (Referee, Team) group keys of an expanded table, in the ascending
order `groupby(['Referee', 'Team'])` produces. -/
def aggKeys (rows : List StatRow) : List (String × String) :=
  sortBy keyLeb ((rows.map key).dedup)

/-- Field-wise sum of `Fouls` over the rows of one group. -/
def sumFouls (rows : List StatRow) (k : String × String) : Int :=
  ((rows.filter (fun r => decide (key r = k))).map (fun r => r.fouls)).sum

/-- Field-wise sum of `YellowCards` over the rows of one group. -/
def sumYellow (rows : List StatRow) (k : String × String) : Int :=
  ((rows.filter (fun r => decide (key r = k))).map (fun r => r.yellow)).sum

/-- Field-wise sum of `RedCards` over the rows of one group. -/
def sumRed (rows : List StatRow) (k : String × String) : Int :=
  ((rows.filter (fun r => decide (key r = k))).map (fun r => r.red)).sum

/-- Step 6: `groupby(['Referee', 'Team'], as_index=False).agg(sum)` —
one output row per distinct key, numeric fields summed over the group. -/
def aggregate (rows : List StatRow) : List StatRow :=
  (aggKeys rows).map (fun k => ⟨k.1, k.2, sumFouls rows k, sumYellow rows k, sumRed rows k⟩)

/-- Step 7 worker: `seen` holds the duplicate keys already emitted. -/
def dropDupsFrom (seen : List (String × Int × Int × Int)) :
    List StatRow → List StatRow
  | [] => []
  | r :: rs =>
    if dkey r ∈ seen then dropDupsFrom seen rs
    else r :: dropDupsFrom (dkey r :: seen) rs

/-- Step 7: `drop_duplicates(subset=['Team', 'Fouls', 'YellowCards',
'RedCards'])` — keep the first row of each duplicate-key class. -/
def drop_duplicates (rows : List StatRow) : List StatRow := dropDupsFrom [] rows

/-- A synthesized all-zero row for a (referee, team) pair. -/
def zeroRow (rf t : String) : StatRow := ⟨rf, t, 0, 0, 0⟩

/-- The row the reindexed table holds at index (rf, t): the unique existing
row with that (Referee, Team) key, or a synthesized zero row. -/
def cell (rows : List StatRow) (rf t : String) : StatRow :=
  match rows.find? (fun r => decide (r.referee = rf ∧ r.team = t)) with
  | some r => r
  | none => zeroRow rf t

/-- Step 8: `reindex` over `MultiIndex.from_product([all_refs, top6])` with
`fill_value=0`: one row per pair, the existing row if present, zeros if not. -/
def reindex (refs teams : List String) (rows : List StatRow) : List StatRow :=
  refs.flatMap (fun rf => teams.map (fun t => cell rows rf t))

/-! ## The assembled pipeline (pre-scaling), with its two error exits -/

/-- The two explicit empty-result error exits of `create_ref_team_dataframe`. -/
inductive PipeError where
  | filterEmpty  : PipeError
  | expandEmpty  : PipeError
deriving DecidableEq, Repr

/-- Stage view: the retained referee list (`top_30_refs`). -/
def retainedRefs (top6 : List String) (ms : List MatchRecord) : List String :=
  topRefs (filterTop6 top6 ms)

/-- Stage view: the filtered matches kept for the retained referees. -/
def keptMatches (top6 : List String) (ms : List MatchRecord) : List MatchRecord :=
  (filterTop6 top6 ms).filter (fun m => (retainedRefs top6 ms).contains (canonRef m))

/-- Stage view: the expanded table (`df_expanded`). -/
def expandStage (top6 : List String) (ms : List MatchRecord) : List StatRow :=
  expandRows top6 (keptMatches top6 ms)

/-- Stage view: the aggregated table (`df_grouped` before step 7). -/
def aggStage (top6 : List String) (ms : List MatchRecord) : List StatRow :=
  aggregate (expandStage top6 ms)

/-- Stage view: the final pre-scaling table (`df_grouped` after reindexing). -/
def finalStage (top6 : List String) (ms : List MatchRecord) : List StatRow :=
  reindex (retainedRefs top6 ms) top6 (drop_duplicates (aggStage top6 ms))

/-- The default team allow-list of `create_ref_team_dataframe`. -/
def top6Default : List String :=
  ["Arsenal", "Chelsea", "Liverpool", "Man City", "Man United", "Tottenham"]

/-- `create_ref_team_dataframe` up to (and excluding) the scaling step:
filter, check-empty, canonicalize, retain top-30 referees, expand,
check-empty, aggregate, drop duplicates, reindex.  An error value records
which empty-result check fired; `.ok` carries the pre-scaling table. -/
def create_ref_team_dataframe (top6 : List String) (ms : List MatchRecord) :
    Except PipeError (List StatRow) :=
  if (filterTop6 top6 ms).isEmpty then .error .filterEmpty
  else if (expandStage top6 ms).isEmpty then .error .expandEmpty
  else .ok (finalStage top6 ms)

/-! ## The scaler (`StandardScaler.fit_transform`, one numeric column)

`StandardScaler` centers each column on its mean and divides by the standard
deviation computed over the same column (population statistics).  The standard
deviation is carried as an explicit parameter `s` constrained by
`s * s = variance xs`, which keeps the development in `ℚ`. -/

/-- Mean of a column of values. -/
def mean (xs : List ℚ) : ℚ := xs.sum / xs.length

/-- Population variance of a column (the statistic `StandardScaler` uses). -/
def variance (xs : List ℚ) : ℚ := mean (xs.map (fun x => (x - mean xs) ^ 2))

/-- The scaling transform: replace each value `v` by `(v - mean) / s`. -/
def standardize (s : ℚ) (xs : List ℚ) : List ℚ :=
  xs.map (fun x => (x - mean xs) / s)

/-! ## The pruning pipeline of `data_processing.py`

A DataFrame is a column-name header plus rows of possibly-missing values.
`df.drop(labels, axis=1)` raises a `KeyError` when a label is absent
(pandas default `errors='raise'`); `df.dropna()` keeps rows without nulls. -/

/-- A tabular structure: named columns and rows of optional values. -/
structure Table where
  header : List String
  rows : List (List (Option ℚ))
deriving DecidableEq, Repr

/-- Remove the columns named in `labels` from a row, by header position. -/
def dropRowCols (labels : List String) (header : List String)
    (r : List (Option ℚ)) : List (Option ℚ) :=
  ((header.zip r).filter (fun p => !(labels.contains p.1))).map (fun p => p.2)

/-- `df.drop(labels, axis=1)` with the pandas default `errors='raise'`:
fails with the first missing label, else removes the named columns. -/
def dropLabels (labels : List String) (t : Table) : Except String Table :=
  match labels.find? (fun l => !(t.header.contains l)) with
  | some l => .error l
  | none => .ok ⟨t.header.filter (fun c => !(labels.contains c)),
                 t.rows.map (dropRowCols labels t.header)⟩

/-- `df.drop(labels, axis=1, errors='ignore')`: same column removal, but
missing labels are silently skipped instead of raising. -/
def dropLabelsIgnore (labels : List String) (t : Table) : Table :=
  ⟨t.header.filter (fun c => !(labels.contains c)),
   t.rows.map (dropRowCols labels t.header)⟩

/-- `df.dropna()`: keep only rows with no missing value. -/
def dropna (t : Table) : Table :=
  ⟨t.header, t.rows.filter (fun r => r.all (fun v => v.isSome))⟩

/-- The fixed drop-list of `data_processing.py`. -/
def dropList : List String :=
  ["Time", "HalfTimeHomeTeamGoals", "HalfTimeAwayTeamGoals", "HalfTimeResult",
   "HomeTeamShots", "AwayTeamShots", "HomeTeamShotsOnTarget",
   "AwayTeamShotsOnTarget", "B365HomeTeam", "B365AwayTeam", "B365Draw",
   "B365Over2.5Goals", "B365Under2.5Goals", "MarketMaxHomeTeam",
   "MarketMaxDraw", "MarketMaxAwayTeam", "MarketAvgHomeTeam", "MarketAvgDraw",
   "MarketAvgAwayTeam", "MarketMaxOver2.5Goals", "MarketMaxUnder2.5Goals",
   "MarketAvgOver2.5Goals", "MarketAvgUnder2.5Goals", "HomeTeamPoints",
   "AwayTeamPoints"]

/-- The module-level pruning pipeline of `data_processing.py`:
drop the fixed column list, then drop rows containing any null. -/
def prune (t : Table) : Except String Table :=
  (dropLabels dropList t).map dropna

/-- The pruning pipeline with missing drop-labels ignored. -/
def pruneIgnore (labels : List String) (t : Table) : Table :=
  dropna (dropLabelsIgnore labels t)

/-! ## Lemmas about the sort -/

theorem perm_insertBy (le : α → α → Bool) (a : α) (l : List α) :
    (insertBy le a l).Perm (a :: l) := by
  induction l with
  | nil => exact List.Perm.refl _
  | cons b bs ih =>
    by_cases h : le a b
    · simp [insertBy, h]
    · simp only [insertBy, h, Bool.false_eq_true, if_false]
      exact (ih.cons b).trans (List.Perm.swap a b bs)

theorem perm_sortBy (le : α → α → Bool) (l : List α) : (sortBy le l).Perm l := by
  induction l with
  | nil => exact List.Perm.refl _
  | cons a as ih => exact (perm_insertBy le a (sortBy le as)).trans (ih.cons a)

theorem pairwise_insertBy (le : α → α → Bool)
    (htrans : ∀ x y z, le x y = true → le y z = true → le x z = true)
    (htotal : ∀ x y, le x y = true ∨ le y x = true) (a : α) (l : List α)
    (h : l.Pairwise (fun x y => le x y = true)) :
    (insertBy le a l).Pairwise (fun x y => le x y = true) := by
  induction l with
  | nil => simp [insertBy]
  | cons b bs ih =>
    rw [List.pairwise_cons] at h
    obtain ⟨hb, hbs⟩ := h
    by_cases hab : le a b
    · simp only [insertBy, hab, if_true]
      rw [List.pairwise_cons]
      refine ⟨?_, List.pairwise_cons.mpr ⟨hb, hbs⟩⟩
      intro x hx
      rcases List.mem_cons.mp hx with rfl | hx
      · exact hab
      · exact htrans a b x hab (hb x hx)
    · have hba : le b a := (htotal a b).resolve_left hab
      simp only [insertBy, hab, Bool.false_eq_true, if_false]
      rw [List.pairwise_cons]
      refine ⟨?_, ih hbs⟩
      intro x hx
      have hx2 : x ∈ a :: bs := (perm_insertBy le a bs).mem_iff.mp hx
      rcases List.mem_cons.mp hx2 with h | h
      · exact h ▸ hba
      · exact hb x h

theorem pairwise_sortBy (le : α → α → Bool)
    (htrans : ∀ x y z, le x y = true → le y z = true → le x z = true)
    (htotal : ∀ x y, le x y = true ∨ le y x = true) (l : List α) :
    (sortBy le l).Pairwise (fun x y => le x y = true) := by
  induction l with
  | nil => simp [sortBy]
  | cons a as ih => exact pairwise_insertBy le htrans htotal a (sortBy le as) ih

/-! ## Lemmas about expansion -/

theorem expandRows_eq_flatMap (top6 : List String) (ms : List MatchRecord) :
    expandRows top6 ms = ms.flatMap (expandMatch top6) := by
  induction ms with
  | nil => rfl
  | cons m ms ih => simp [expandRows, ih]

theorem referee_of_mem_expandMatch (top6 : List String) (m : MatchRecord)
    (r : StatRow) (h : r ∈ expandMatch top6 m) : r.referee = canonRef m := by
  simp only [expandMatch, List.mem_append] at h
  rcases h with h | h
  all_goals
    split at h
    · rw [List.mem_singleton] at h
      subst h
      rfl
    · simp at h

/-! ## Lemmas about reindexing -/

/-- The (referee, team) Cartesian-product key list, in reindex order. -/
def prodKeys (refs teams : List String) : List (String × String) :=
  refs.flatMap (fun rf => teams.map (fun t => (rf, t)))

theorem key_cell (rows : List StatRow) (rf t : String) :
    key (cell rows rf t) = (rf, t) := by
  unfold cell
  cases hfind : rows.find? (fun r => decide (r.referee = rf ∧ r.team = t)) with
  | none => rfl
  | some r =>
    have hp := List.find?_some hfind
    have hr : r.referee = rf ∧ r.team = t := of_decide_eq_true hp
    simp [key, hr.1, hr.2]

theorem map_key_reindex (refs teams : List String) (rows : List StatRow) :
    (reindex refs teams rows).map key = prodKeys refs teams := by
  simp only [reindex, prodKeys, List.map_flatMap, List.map_map]
  refine List.flatMap_congr ?_
  intro rf _
  exact List.map_congr_left (fun t _ => key_cell rows rf t)

theorem length_prodKeys (refs teams : List String) :
    (prodKeys refs teams).length = refs.length * teams.length := by
  induction refs with
  | nil => simp [prodKeys]
  | cons rf rfs ih =>
    simp only [prodKeys, List.flatMap_cons, List.length_append, List.length_map,
      List.length_cons] at ih ⊢
    rw [ih]; ring

theorem length_reindex (refs teams : List String) (rows : List StatRow) :
    (reindex refs teams rows).length = refs.length * teams.length := by
  have h := congrArg List.length (map_key_reindex refs teams rows)
  simpa [length_prodKeys] using h

theorem mem_prodKeys (refs teams : List String) (p : String × String) :
    p ∈ prodKeys refs teams ↔ p.1 ∈ refs ∧ p.2 ∈ teams := by
  cases p with
  | mk a b =>
    simp only [prodKeys, List.mem_flatMap, List.mem_map, Prod.mk.injEq]
    constructor
    · rintro ⟨rf, hrf, t, ht, rfl, rfl⟩
      exact ⟨hrf, ht⟩
    · rintro ⟨ha, hb⟩
      exact ⟨a, ha, b, hb, rfl, rfl⟩

theorem nodup_prodKeys (refs teams : List String)
    (h1 : refs.Nodup) (h2 : teams.Nodup) : (prodKeys refs teams).Nodup := by
  induction refs with
  | nil => simp [prodKeys]
  | cons rf rfs ih =>
    rw [List.nodup_cons] at h1
    simp only [prodKeys, List.flatMap_cons]
    rw [List.nodup_append]
    refine ⟨h2.map (fun t t' htt => (Prod.mk.injEq rf t rf t').mp htt |>.2), ih h1.2, ?_⟩
    intro p hp hp2
    obtain ⟨t, _, rfl⟩ := List.mem_map.mp hp
    have := (mem_prodKeys rfs teams (rf, t)).mp hp2
    exact h1.1 this.1

theorem mem_reindex_referee (refs teams : List String) (rows : List StatRow)
    (row : StatRow) (h : row ∈ reindex refs teams rows) : row.referee ∈ refs := by
  have hk : key row ∈ prodKeys refs teams := by
    rw [← map_key_reindex refs teams rows]
    exact List.mem_map_of_mem key h
  exact ((mem_prodKeys refs teams (key row)).mp hk).1

/-! ## Lemmas about duplicate dropping -/

theorem sublist_dropDupsFrom (seen : List (String × Int × Int × Int))
    (rows : List StatRow) : (dropDupsFrom seen rows).Sublist rows := by
  induction rows generalizing seen with
  | nil => simp [dropDupsFrom]
  | cons r rs ih =>
    by_cases h : dkey r ∈ seen
    · simp only [dropDupsFrom, if_pos h]
      exact (ih seen).trans (List.sublist_cons_self r rs)
    · simp only [dropDupsFrom, if_neg h]
      exact (ih (dkey r :: seen)).cons₂ r

theorem sublist_drop_duplicates (rows : List StatRow) :
    (drop_duplicates rows).Sublist rows := sublist_dropDupsFrom [] rows

theorem mem_dropDupsFrom (seen : List (String × Int × Int × Int))
    (rows : List StatRow) (r : StatRow) :
    r ∈ dropDupsFrom seen rows ↔
      dkey r ∉ seen ∧
      ∃ l₁ l₂, rows = l₁ ++ r :: l₂ ∧ ∀ x ∈ l₁, dkey x ≠ dkey r := by
  induction rows generalizing seen with
  | nil =>
    simp [dropDupsFrom]
  | cons b bs ih =>
    by_cases h : dkey b ∈ seen
    · simp only [dropDupsFrom, if_pos h, ih]
      constructor
      · rintro ⟨hs, l₁, l₂, rfl, hfree⟩
        refine ⟨hs, b :: l₁, l₂, rfl, ?_⟩
        intro x hx
        rcases List.mem_cons.mp hx with rfl | hx
        · intro hd; exact hs (hd ▸ h)
        · exact hfree x hx
      · rintro ⟨hs, l₁, l₂, heq, hfree⟩
        cases l₁ with
        | nil =>
          simp only [List.nil_append, List.cons.injEq] at heq
          exact absurd (heq.1 ▸ h) hs
        | cons c l₁ =>
          simp only [List.cons_append, List.cons.injEq] at heq
          refine ⟨hs, l₁, l₂, heq.2, ?_⟩
          intro x hx
          exact hfree x (heq.1 ▸ List.mem_cons_of_mem c hx)
    · simp only [dropDupsFrom, if_neg h, List.mem_cons, ih]
      constructor
      · rintro (rfl | ⟨hs, l₁, l₂, rfl, hfree⟩)
        · exact ⟨h, [], bs, rfl, by simp⟩
        · have hsr : dkey r ∉ seen := fun hc => hs (Or.inr hc)
          have hbr : dkey r ≠ dkey b := fun hc => hs (Or.inl hc)
          refine ⟨hsr, b :: l₁, l₂, rfl, ?_⟩
          intro x hx
          rcases List.mem_cons.mp hx with rfl | hx
          · exact fun hd => hbr hd.symm
          · exact hfree x hx
      · rintro ⟨hs, l₁, l₂, heq, hfree⟩
        cases l₁ with
        | nil =>
          simp only [List.nil_append, List.cons.injEq] at heq
          exact Or.inl heq.1.symm
        | cons c l₁ =>
          simp only [List.cons_append, List.cons.injEq] at heq
          refine Or.inr ⟨?_, l₁, l₂, heq.2, ?_⟩
          · intro hc
            rcases hc with hc | hc
            · exact hfree c (List.mem_cons_self c l₁) (by rw [← heq.1, ← hc])
            · exact hs hc
          · intro x hx
            exact hfree x (heq.1 ▸ List.mem_cons_of_mem c hx)

theorem mem_drop_duplicates (rows : List StatRow) (r : StatRow) :
    r ∈ drop_duplicates rows ↔
      ∃ l₁ l₂, rows = l₁ ++ r :: l₂ ∧ ∀ x ∈ l₁, dkey x ≠ dkey r := by
  rw [drop_duplicates, mem_dropDupsFrom]
  simp

/-! ## Lemmas about aggregation -/

theorem map_key_aggregate (rows : List StatRow) :
    (aggregate rows).map key = aggKeys rows := by
  simp only [aggregate, List.map_map]
  exact List.map_congr_left (fun k _ => rfl) |>.trans (List.map_id _)

theorem perm_aggKeys (rows : List StatRow) :
    (aggKeys rows).Perm ((rows.map key).dedup) := perm_sortBy _ _

theorem nodup_aggKeys (rows : List StatRow) : (aggKeys rows).Nodup :=
  (perm_aggKeys rows).symm.nodup (List.nodup_dedup _)

theorem mem_aggKeys (rows : List StatRow) (k : String × String) :
    k ∈ aggKeys rows ↔ k ∈ rows.map key := by
  rw [(perm_aggKeys rows).mem_iff, List.mem_dedup]

theorem nodup_map_key_aggregate (rows : List StatRow) :
    ((aggregate rows).map key).Nodup := by
  rw [map_key_aggregate]; exact nodup_aggKeys rows

theorem mem_aggregate_stats (rows : List StatRow) (g : StatRow)
    (h : g ∈ aggregate rows) :
    g.fouls = sumFouls rows (key g) ∧ g.yellow = sumYellow rows (key g) ∧
      g.red = sumRed rows (key g) := by
  simp only [aggregate, List.mem_map] at h
  obtain ⟨k, _, rfl⟩ := h
  constructor
  · rfl
  constructor
  · rfl
  · rfl

/-! ## Lemmas about referee selection -/

theorem nodup_distinctRefs (ms : List MatchRecord) : (distinctRefs ms).Nodup :=
  List.Perm.nodup (List.Perm.symm (perm_sortBy strLeb ((ms.map canonRef).dedup)))
    (List.nodup_dedup (ms.map canonRef))

theorem nodup_topRefs (ms : List MatchRecord) : (topRefs ms).Nodup :=
  (List.take_sublist _ _).nodup
    ((perm_sortBy _ (distinctRefs ms)).symm.nodup (nodup_distinctRefs ms))

theorem mem_topRefs_distinct (ms : List MatchRecord) (r : String)
    (h : r ∈ topRefs ms) : r ∈ distinctRefs ms :=
  (perm_sortBy _ (distinctRefs ms)).mem_iff.mp ((List.take_sublist _ _).mem h)

theorem length_topRefs (ms : List MatchRecord) :
    (topRefs ms).length = min 30 (distinctRefs ms).length := by
  simp [topRefs, List.length_take, (perm_sortBy _ (distinctRefs ms)).length_eq]

theorem topRefs_dominates (ms : List MatchRecord) (r q : String)
    (hr : r ∈ topRefs ms) (hq : q ∈ distinctRefs ms) (hq2 : q ∉ topRefs ms) :
    gameCount ms q ≤ gameCount ms r := by
  have hpw : (sortBy (fun a b => decide (gameCount ms b ≤ gameCount ms a))
      (distinctRefs ms)).Pairwise
      (fun x y => decide (gameCount ms y ≤ gameCount ms x) = true) := by
    refine pairwise_sortBy _ ?_ ?_ _
    · intro x y z hxy hyz
      have h1 := of_decide_eq_true hxy
      have h2 := of_decide_eq_true hyz
      exact decide_eq_true (le_trans h2 h1)
    · intro x y
      rcases Nat.le_total (gameCount ms y) (gameCount ms x) with h | h
      · exact Or.inl (decide_eq_true h)
      · exact Or.inr (decide_eq_true h)
  set s := sortBy (fun a b => decide (gameCount ms b ≤ gameCount ms a))
    (distinctRefs ms) with hs
  have hsplit : s.take 30 ++ s.drop 30 = s := List.take_append_drop 30 s
  have hq3 : q ∈ s := (perm_sortBy _ (distinctRefs ms)).symm.mem_iff.mp hq
  have hqdrop : q ∈ s.drop 30 := by
    rcases List.mem_append.mp (hsplit ▸ hq3) with h | h
    · exact absurd h hq2
    · exact h
  have hpw2 := hsplit ▸ hpw
  have := (List.pairwise_append.mp hpw2).2.2 r hr q hqdrop
  exact of_decide_eq_true this

/-! ## Lemmas about lookup with distinct keys -/

theorem find?_of_nodup_keys (rows : List StatRow) (hn : ((rows.map key)).Nodup)
    (r : StatRow) (hr : r ∈ rows) :
    rows.find? (fun x => decide (x.referee = r.referee ∧ x.team = r.team)) = some r := by
  induction rows with
  | nil => simp at hr
  | cons b bs ih =>
    rw [List.map_cons, List.nodup_cons] at hn
    rcases List.mem_cons.mp hr with rfl | hr
    · exact List.find?_cons_of_pos _ (decide_eq_true ⟨rfl, rfl⟩)
    · have hkr : key r ∈ bs.map key := List.mem_map_of_mem key hr
      have hne : ¬(b.referee = r.referee ∧ b.team = r.team) := by
        rintro ⟨h1, h2⟩
        exact hn.1 (by rw [show key b = key r from Prod.ext h1 h2]; exact hkr)
      rw [List.find?_cons_of_neg _ (by simpa using hne)]
      exact ih hn.2 hr

theorem cell_of_mem (rows : List StatRow) (hn : ((rows.map key)).Nodup)
    (r : StatRow) (hr : r ∈ rows) : cell rows r.referee r.team = r := by
  unfold cell
  rw [find?_of_nodup_keys rows hn r hr]

theorem cell_of_absent (rows : List StatRow) (rf t : String)
    (habs : ∀ r ∈ rows, key r ≠ (rf, t)) : cell rows rf t = zeroRow rf t := by
  unfold cell
  have hnone : rows.find? (fun r => decide (r.referee = rf ∧ r.team = t)) = none := by
    rw [List.find?_eq_none]
    intro x hx hc
    obtain ⟨h1, h2⟩ := of_decide_eq_true hc
    exact habs x hx (Prod.ext h1 h2)
  rw [hnone]

theorem cell_mem_reindex (refs teams : List String) (rows : List StatRow)
    (rf t : String) (hrf : rf ∈ refs) (ht : t ∈ teams) :
    cell rows rf t ∈ reindex refs teams rows := by
  rw [reindex, List.mem_flatMap]
  exact ⟨rf, hrf, List.mem_map_of_mem _ ht⟩

theorem nodup_key_drop_duplicates (rows : List StatRow)
    (hn : ((rows.map key)).Nodup) : (((drop_duplicates rows).map key)).Nodup :=
  ((sublist_drop_duplicates rows).map key).nodup hn

/-! ## Lemmas about the scaler -/

theorem sum_map_div (l : List ℚ) (f : ℚ → ℚ) (s : ℚ) :
    (l.map (fun x => f x / s)).sum = (l.map f).sum / s := by
  induction l with
  | nil => simp
  | cons a as ih => simp [ih, add_div]

theorem sum_map_center (l : List ℚ) (c : ℚ) :
    (l.map (fun x => x - c)).sum = l.sum - l.length * c := by
  induction l with
  | nil => simp
  | cons a as ih =>
    simp only [List.map_cons, List.sum_cons, ih, List.length_cons]
    push_cast
    ring

theorem length_pos_rat (xs : List ℚ) (hne : xs ≠ []) : (xs.length : ℚ) ≠ 0 := by
  have : xs.length ≠ 0 := fun h => hne (List.length_eq_zero.mp h)
  exact_mod_cast this

theorem mean_def (l : List ℚ) : mean l = l.sum / l.length := rfl

theorem variance_def (l : List ℚ) :
    variance l = mean (l.map (fun x => (x - mean l) ^ 2)) := rfl

theorem standardize_def (s : ℚ) (xs : List ℚ) :
    standardize s xs = xs.map (fun x => (x - mean xs) / s) := rfl

theorem mean_standardize (xs : List ℚ) (s : ℚ) (hne : xs ≠ []) :
    mean (standardize s xs) = 0 := by
  have hn := length_pos_rat xs hne
  have hsum0 : xs.sum - xs.length * mean xs = 0 := by
    rw [mean_def]
    field_simp
  rw [mean_def, standardize_def, List.length_map,
    sum_map_div xs (fun x => x - mean xs) s, sum_map_center, hsum0, zero_div, zero_div]

theorem variance_standardize (xs : List ℚ) (s : ℚ) (hne : xs ≠ [])
    (hs : s * s = variance xs) (hs0 : s ≠ 0) :
    variance (standardize s xs) = 1 := by
  have hn := length_pos_rat xs hne
  have hss : s * s ≠ 0 := mul_ne_zero hs0 hs0
  rw [variance_def, mean_standardize xs s hne]
  have hmap : (standardize s xs).map (fun x => (x - 0) ^ 2) =
      xs.map (fun x => (x - mean xs) ^ 2 / (s * s)) := by
    rw [standardize_def, List.map_map]
    refine List.map_congr_left ?_
    intro x _
    simp only [Function.comp]
    rw [sub_zero, div_pow, sq, sq]
  rw [hmap, mean_def, List.length_map,
    sum_map_div xs (fun x => (x - mean xs) ^ 2) (s * s)]
  have hvar : variance xs = ((xs.map (fun x => (x - mean xs) ^ 2)).sum) / xs.length := by
    rw [variance_def, mean_def, List.length_map]
  rw [div_div, mul_comm (s * s) (xs.length : ℚ), ← div_div, ← hvar, ← hs]
  exact div_self hss

/-! ## Lemmas about the pruning pipeline -/

theorem length_dropRowCols_le (labels header : List String) (r : List (Option ℚ)) :
    (dropRowCols labels header r).length ≤
      (header.filter (fun c => !(labels.contains c))).length := by
  induction header generalizing r with
  | nil => simp [dropRowCols]
  | cons c h ih =>
    cases r with
    | nil => simp [dropRowCols]
    | cons v vs =>
      by_cases hc : labels.contains c
      · simp only [dropRowCols, List.zip_cons_cons, List.filter_cons, hc,
          Bool.not_true, List.length_map] at *
        simpa [dropRowCols] using ih vs
      · simp only [dropRowCols, List.zip_cons_cons, List.filter_cons,
          Bool.not_eq_true', hc, Bool.not_false, List.map_cons, List.length_cons] at *
        exact Nat.succ_le_succ (by simpa [dropRowCols] using ih vs)

theorem dropRowCols_of_clean (labels header : List String) (r : List (Option ℚ))
    (hh : ∀ c ∈ header, labels.contains c = false)
    (hr : r.length ≤ header.length) :
    dropRowCols labels header r = r := by
  unfold dropRowCols
  have hfilter : (header.zip r).filter (fun p => !(labels.contains p.1)) =
      header.zip r := by
    rw [List.filter_eq_self]
    rintro ⟨c, v⟩ hp
    have hch := (List.of_mem_zip hp).1
    show (!(labels.contains c)) = true
    rw [Bool.not_eq_true']
    exact hh c hch
  rw [hfilter]
  exact List.map_snd_zip header r hr

theorem pruneIgnore_idem (labels : List String) (t : Table) :
    pruneIgnore labels (pruneIgnore labels t) = pruneIgnore labels t := by
  unfold pruneIgnore dropna dropLabelsIgnore
  simp only
  have hheader : ∀ l : List String,
      (l.filter (fun c => !(labels.contains c))).filter
        (fun c => !(labels.contains c)) = l.filter (fun c => !(labels.contains c)) := by
    intro l
    rw [List.filter_eq_self]
    intro c hc
    exact List.of_mem_filter (p := fun c => !(labels.contains c)) hc
  congr 1
  · exact hheader t.header
  · set h1 := t.header.filter (fun c => !(labels.contains c)) with hh1
    set rows1 := (t.rows.map (dropRowCols labels t.header)).filter
      (fun r => r.all (fun v => v.isSome)) with hr1
    have hrows : rows1.map (dropRowCols labels h1) = rows1 := by
      have : ∀ r ∈ rows1, dropRowCols labels h1 r = r := by
        intro r hrmem
        have hr2 : r ∈ t.rows.map (dropRowCols labels t.header) :=
          (List.mem_filter.mp hrmem).1
        obtain ⟨r0, _, rfl⟩ := List.mem_map.mp hr2
        refine dropRowCols_of_clean labels h1 _ ?_ ?_
        · intro c hc
          have := List.of_mem_filter hc
          simpa using this
        · exact length_dropRowCols_le labels t.header r0
      calc rows1.map (dropRowCols labels h1) = rows1.map id :=
            List.map_congr_left (fun r hr => this r hr)
        _ = rows1 := List.map_id rows1
    rw [hrows]
    rw [List.filter_eq_self]
    intro r hrmem
    exact List.of_mem_filter
      (p := fun (r : List (Option ℚ)) => r.all (fun v => v.isSome)) hrmem

/-! ## Concrete inputs used by the example-level statements -/

/-- Spec end-to-end example, match 1: Arsenal vs Everton, referee M. Oliver,
8 home fouls; no other numeric columns present. -/
def exMatch1 : MatchRecord :=
  ⟨1, "Arsenal", "Everton", "M. Oliver", some 8, none, none, none, none, none⟩

/-- Spec end-to-end example, match 2: Chelsea vs Arsenal, referee M. Oliver,
6 home fouls and 9 away fouls. -/
def exMatch2 : MatchRecord :=
  ⟨2, "Chelsea", "Arsenal", "M. Oliver", some 6, none, none, some 9, none, none⟩

/-- Spec end-to-end example allow-list. -/
def exTeams : List String := ["Arsenal", "Chelsea"]

/-- Spec end-to-end example input. -/
def exMatches : List MatchRecord := [exMatch1, exMatch2]

/-- The pre-scaling output on the end-to-end example input. -/
def exOut : List StatRow :=
  [⟨"M Oliver", "Arsenal", 17, 0, 0⟩, ⟨"M Oliver", "Chelsea", 6, 0, 0⟩]

/-- Duplicate-tuple input, match 1: referee Aa, Arsenal at home, 5 fouls. -/
def dupMatch1 : MatchRecord :=
  ⟨1, "Arsenal", "Everton", "Aa", some 5, none, none, none, none, none⟩

/-- Duplicate-tuple input, match 2: referee Bb, Arsenal at home, 5 fouls —
the aggregated (Team, Fouls, YellowCards, RedCards) tuple coincides with
referee Aa's. -/
def dupMatch2 : MatchRecord :=
  ⟨2, "Arsenal", "Fulham", "Bb", some 5, none, none, none, none, none⟩

/-- Duplicate-tuple example allow-list. -/
def dupTeams : List String := ["Arsenal"]

/-- Duplicate-tuple example input. -/
def dupMatches : List MatchRecord := [dupMatch1, dupMatch2]

/-- A table carrying every drop-list column plus one extra, with one
fully-populated row. -/
def exTable : Table :=
  ⟨dropList ++ ["HomeTeam"], [List.replicate 26 (some 0)]⟩

/-! ## The claims -/

theorem create_ok_iff (top6 : List String) (ms : List MatchRecord)
    (out : List StatRow) :
    create_ref_team_dataframe top6 ms = .ok out ↔
      ¬(filterTop6 top6 ms).isEmpty ∧ ¬(expandStage top6 ms).isEmpty ∧
        out = finalStage top6 ms := by
  unfold create_ref_team_dataframe
  by_cases h1 : (filterTop6 top6 ms).isEmpty <;>
    by_cases h2 : (expandStage top6 ms).isEmpty <;>
      simp [h1, h2, eq_comm]

/-- C1: whenever the pipeline reaches the reindexing step (it returns a
table), that table has exactly (number of retained referees) ×
(number of allow-listed teams) rows, its (Referee, Team) keys are exactly the
Cartesian product of the retained referees and the allow-list with no
duplicates and no gaps, and in the observed 30-referee × 6-team configuration
this count is exactly 180. -/
theorem reindex_rowcount_invariant (top6 : List String) (ms : List MatchRecord)
    (out : List StatRow) (hok : create_ref_team_dataframe top6 ms = .ok out)
    (hnd : top6.Nodup) :
    out.length = (retainedRefs top6 ms).length * top6.length ∧
    (out.map key).Nodup ∧
    (∀ p : String × String,
        p ∈ out.map key ↔ p.1 ∈ retainedRefs top6 ms ∧ p.2 ∈ top6) ∧
    ((retainedRefs top6 ms).length = 30 → top6.length = 6 → out.length = 180) := by
  obtain ⟨-, -, rfl⟩ := (create_ok_iff top6 ms out).mp hok
  have hlen : (finalStage top6 ms).length =
      (retainedRefs top6 ms).length * top6.length := length_reindex _ _ _
  have hkeys : (finalStage top6 ms).map key = prodKeys (retainedRefs top6 ms) top6 :=
    map_key_reindex _ _ _
  refine ⟨hlen, ?_, ?_, ?_⟩
  · rw [hkeys]
    exact nodup_prodKeys _ _ (nodup_topRefs _) hnd
  · intro p
    rw [hkeys]
    exact mem_prodKeys _ _ p
  · intro h30 h6
    rw [hlen, h30, h6]

/-- Witness for C1 at the end-to-end example input: the pipeline returns a
table of 1 × 2 = 2 rows. -/
theorem reindex_rowcount_invariant_witness :
    create_ref_team_dataframe exTeams exMatches = .ok exOut ∧ exTeams.Nodup ∧
    exOut.length = (retainedRefs exTeams exMatches).length * exTeams.length :=
  ⟨rfl, by decide,
    (reindex_rowcount_invariant exTeams exMatches exOut rfl (by decide)).1⟩

/-- C2 (counterexample): on the duplicate-tuple input, the pair
(Bb, Arsenal) is present in the aggregated table with 5 fouls, yet the final
pre-scaling table carries it as an all-zero row — the duplicate-drop step
between aggregation and reindexing discarded it, so the claim that every
aggregated pair is copied through unchanged fails. -/
theorem aggregated_pair_not_copied :
    (⟨"Bb", "Arsenal", 5, 0, 0⟩ : StatRow) ∈ aggStage dupTeams dupMatches ∧
    create_ref_team_dataframe dupTeams dupMatches =
      .ok [⟨"Aa", "Arsenal", 5, 0, 0⟩, ⟨"Bb", "Arsenal", 0, 0, 0⟩] :=
  ⟨by decide, rfl⟩

/-- C2 (amended): the copy-through / zero-fill contract holds of the table
the reindexing step actually receives — the aggregated table after the
duplicate-drop step. Every row of that table whose referee is retained and
whose team is allow-listed is copied unchanged into the final pre-scaling
table, and every (referee, team) pair of the Cartesian product with no row
in that table appears as an all-zero row. -/
theorem dedup_rows_copied_and_zero_filled (top6 : List String)
    (ms : List MatchRecord) :
    (∀ r ∈ drop_duplicates (aggStage top6 ms),
        r.referee ∈ retainedRefs top6 ms → r.team ∈ top6 →
          r ∈ finalStage top6 ms) ∧
    (∀ rf ∈ retainedRefs top6 ms, ∀ t ∈ top6,
        (∀ r ∈ drop_duplicates (aggStage top6 ms), key r ≠ (rf, t)) →
          zeroRow rf t ∈ finalStage top6 ms) := by
  have hnk : (((drop_duplicates (aggStage top6 ms)).map key)).Nodup :=
    nodup_key_drop_duplicates _ (nodup_map_key_aggregate _)
  constructor
  · intro r hr hrf ht
    have hcell := cell_of_mem _ hnk r hr
    have := cell_mem_reindex (retainedRefs top6 ms) top6
      (drop_duplicates (aggStage top6 ms)) r.referee r.team hrf ht
    rw [hcell] at this
    exact this
  · intro rf hrf t ht habs
    have hcell := cell_of_absent (drop_duplicates (aggStage top6 ms)) rf t habs
    have := cell_mem_reindex (retainedRefs top6 ms) top6
      (drop_duplicates (aggStage top6 ms)) rf t hrf ht
    rw [hcell] at this
    exact this

/-- C3: the duplicate-drop step removes exactly the aggregated rows whose
(Team, Fouls, YellowCards, RedCards) tuple already occurred earlier in the
aggregated order, keeping the first occurrence; when the aggregated keys are
distinct, a removed row's earlier twin necessarily belongs to a different
referee; and on a concrete input a referee who officiated an allow-listed
team with nonzero fouls ends up with an all-zero row for that team. -/
theorem duplicate_drop_loses_pairs :
    (∀ (rows : List StatRow) (r : StatRow),
        r ∈ drop_duplicates rows ↔
          ∃ l₁ l₂, rows = l₁ ++ r :: l₂ ∧ ∀ x ∈ l₁, dkey x ≠ dkey r) ∧
    (∀ (rows : List StatRow) (r : StatRow), ((rows.map key)).Nodup →
        r ∈ rows → r ∉ drop_duplicates rows →
          ∃ x ∈ rows, x ≠ r ∧ dkey x = dkey r ∧ x.referee ≠ r.referee) ∧
    ((⟨"Bb", "Arsenal", 5, 0, 0⟩ : StatRow) ∈ aggStage dupTeams dupMatches ∧
      (⟨"Bb", "Arsenal", 5, 0, 0⟩ : StatRow) ∉
        drop_duplicates (aggStage dupTeams dupMatches) ∧
      (⟨"Bb", "Arsenal", 0, 0, 0⟩ : StatRow) ∈ finalStage dupTeams dupMatches) := by
  refine ⟨mem_drop_duplicates, ?_, by decide, by decide, by decide⟩
  intro rows r hnk hr hnd
  obtain ⟨l₁, l₂, rfl⟩ := List.append_of_mem hr
  have hnosplit := (mem_drop_duplicates (l₁ ++ r :: l₂) r).not.mp hnd
  push_neg at hnosplit
  obtain ⟨x, hx, hdk⟩ := hnosplit l₁ l₂ rfl
  have hxmem : x ∈ l₁ ++ r :: l₂ := List.mem_append_left _ hx
  have hxne : x ≠ r := by
    rintro rfl
    rw [List.map_append, List.map_cons] at hnk
    have hdisj := (List.nodup_append.mp hnk).2.2
    exact hdisj (List.mem_map_of_mem key hx) (List.mem_cons_self _ _)
  refine ⟨x, hxmem, hxne, hdk, ?_⟩
  intro hrefeq
  have hteam : x.team = r.team := congrArg Prod.fst hdk
  have hkeq : key x = key r := by
    unfold key
    rw [hrefeq, hteam]
  exact hxne (List.inj_on_of_nodup_map hnk hxmem hr hkeq)

/-- C4: the row expander is the per-match flat-map that emits the home-side
row when HomeTeam is allow-listed followed by the away-side row when AwayTeam
is allow-listed (so two rows when both sides are listed, none when neither
is), in original match order, with each side's numeric fields read from that
side's columns and defaulting to 0 when the column is absent. -/
theorem expander_per_match_rows (top6 : List String) (ms : List MatchRecord)
    (m : MatchRecord) :
    expandRows top6 ms = ms.flatMap (expandMatch top6) ∧
    (top6.contains m.homeTeam = true → top6.contains m.awayTeam = true →
      expandMatch top6 m = [homeRow m, awayRow m]) ∧
    (top6.contains m.homeTeam = true → top6.contains m.awayTeam = false →
      expandMatch top6 m = [homeRow m]) ∧
    (top6.contains m.homeTeam = false → top6.contains m.awayTeam = true →
      expandMatch top6 m = [awayRow m]) ∧
    (top6.contains m.homeTeam = false → top6.contains m.awayTeam = false →
      expandMatch top6 m = []) ∧
    ((homeRow m).referee = canonRef m ∧ (homeRow m).team = m.homeTeam ∧
      (homeRow m).fouls = m.homeFouls.getD 0 ∧
      (homeRow m).yellow = m.homeYellow.getD 0 ∧
      (homeRow m).red = m.homeRed.getD 0) ∧
    ((awayRow m).referee = canonRef m ∧ (awayRow m).team = m.awayTeam ∧
      (awayRow m).fouls = m.awayFouls.getD 0 ∧
      (awayRow m).yellow = m.awayYellow.getD 0 ∧
      (awayRow m).red = m.awayRed.getD 0) ∧
    (m.homeFouls = none → (homeRow m).fouls = 0) := by
  refine ⟨expandRows_eq_flatMap top6 ms, ?_, ?_, ?_, ?_,
    ⟨rfl, rfl, rfl, rfl, rfl⟩, ⟨rfl, rfl, rfl, rfl, rfl⟩, ?_⟩
  · intro h1 h2
    simp at h1 h2
    simp [expandMatch, h1, h2]
  · intro h1 h2
    simp at h1 h2
    simp [expandMatch, h1, h2]
  · intro h1 h2
    simp at h1 h2
    simp [expandMatch, h1, h2]
  · intro h1 h2
    simp at h1 h2
    simp [expandMatch, h1, h2]
  · intro h
    simp [homeRow, h]

/-- C5: the aggregator emits exactly one row per (Referee, Team) key occurring
among the expanded rows — no other keys, no duplicate keys — whose numeric
fields are the field-wise sums over the rows with that key; on the spec's
example, two rows for the same key with 10 and 5 fouls aggregate to 15. -/
theorem aggregate_groups_sum (rows : List StatRow) :
    ((aggregate rows).map key).Nodup ∧
    (∀ k : String × String, k ∈ (aggregate rows).map key ↔ k ∈ rows.map key) ∧
    (∀ g ∈ aggregate rows,
        g.fouls = sumFouls rows (key g) ∧ g.yellow = sumYellow rows (key g) ∧
          g.red = sumRed rows (key g)) ∧
    aggregate [⟨"A", "X", 10, 0, 0⟩, ⟨"A", "X", 5, 0, 0⟩] =
      [⟨"A", "X", 15, 0, 0⟩] := by
  refine ⟨nodup_map_key_aggregate rows, ?_, mem_aggregate_stats rows, by decide⟩
  intro k
  rw [map_key_aggregate]
  exact mem_aggKeys rows k

/-- C6: on the spec's two-match example with allow-list {Arsenal, Chelsea},
expansion yields exactly the three rows Arsenal/8, Chelsea/6, Arsenal/9 in
order, aggregation yields 17 fouls for (M Oliver, Arsenal) and 6 for
(M Oliver, Chelsea), one referee is retained, and the pipeline's final
pre-scaling table is exactly those two rows with no synthesized zero row. -/
theorem end_to_end_example :
    expandStage exTeams exMatches =
      [⟨"M Oliver", "Arsenal", 8, 0, 0⟩, ⟨"M Oliver", "Chelsea", 6, 0, 0⟩,
       ⟨"M Oliver", "Arsenal", 9, 0, 0⟩] ∧
    aggStage exTeams exMatches =
      [⟨"M Oliver", "Arsenal", 17, 0, 0⟩, ⟨"M Oliver", "Chelsea", 6, 0, 0⟩] ∧
    retainedRefs exTeams exMatches = ["M Oliver"] ∧
    create_ref_team_dataframe exTeams exMatches = .ok exOut :=
  ⟨rfl, rfl, rfl, rfl⟩

/-- C7: the selection step retains exactly the top 30 canonicalized referees
(all of them when fewer than 30 occur) ranked by distinct-MatchID count over
the filtered match set, descending — every retained referee's count is at
least every non-retained referee's count — and every later stage only carries
rows whose referee is retained. -/
theorem top30_referee_selection (top6 : List String) (ms : List MatchRecord) :
    (retainedRefs top6 ms).length =
      min 30 (distinctRefs (filterTop6 top6 ms)).length ∧
    (∀ r ∈ retainedRefs top6 ms, r ∈ distinctRefs (filterTop6 top6 ms)) ∧
    (∀ r ∈ retainedRefs top6 ms, ∀ q ∈ distinctRefs (filterTop6 top6 ms),
        q ∉ retainedRefs top6 ms →
          gameCount (filterTop6 top6 ms) q ≤ gameCount (filterTop6 top6 ms) r) ∧
    (∀ row ∈ expandStage top6 ms, row.referee ∈ retainedRefs top6 ms) ∧
    (∀ out : List StatRow, create_ref_team_dataframe top6 ms = .ok out →
        ∀ row ∈ out, row.referee ∈ retainedRefs top6 ms) := by
  refine ⟨length_topRefs _, mem_topRefs_distinct _,
    fun r hr q hq hq2 => topRefs_dominates _ r q hr hq hq2, ?_, ?_⟩
  · intro row hrow
    rw [expandStage, expandRows_eq_flatMap, List.mem_flatMap] at hrow
    obtain ⟨m, hm, hr⟩ := hrow
    have hc := (List.mem_filter.mp hm).2
    rw [referee_of_mem_expandMatch top6 m row hr]
    simpa using hc
  · intro out hok row hrow
    obtain ⟨-, -, rfl⟩ := (create_ok_iff top6 ms out).mp hok
    exact mem_reindex_referee _ _ _ row hrow

/-- C8: the scaler replaces each value `v` of a column by `(v - mean) / s`,
where the mean and the standard deviation `s` (`s * s` equal to the column's
variance) are computed over the column itself; for any non-empty column with
nonzero deviation the scaled column has mean exactly 0 and variance exactly 1
(so standard deviation 1) — the exact-arithmetic form of the floating-point
round-trip. -/
theorem scaler_zero_mean_unit_variance (xs : List ℚ) (s : ℚ) (hne : xs ≠ [])
    (hs : s * s = variance xs) (hs0 : s ≠ 0) :
    mean (standardize s xs) = 0 ∧ variance (standardize s xs) = 1 :=
  ⟨mean_standardize xs s hne, variance_standardize xs s hne hs hs0⟩

/-- Witness for C8 at the concrete column [0, 2]: its mean is 1, its variance
is 1, and scaling by s = 1 gives mean 0 and variance 1. -/
theorem scaler_zero_mean_unit_variance_witness :
    (([0, 2] : List ℚ) ≠ [] ∧ (1 : ℚ) * 1 = variance [0, 2] ∧ (1 : ℚ) ≠ 0) ∧
    (mean (standardize 1 [0, 2]) = 0 ∧ variance (standardize 1 [0, 2]) = 1) := by
  have hvar : (1 : ℚ) * 1 = variance [0, 2] := by
    norm_num [variance_def, mean_def]
  exact ⟨⟨by simp, hvar, one_ne_zero⟩,
    scaler_zero_mean_unit_variance [0, 2] 1 (by simp) hvar one_ne_zero⟩

/-- C9: the pipeline reports the filter-empty error exactly when the
top-team filter keeps no match, reports the expansion-empty error exactly
when the filter kept something but expansion emitted no row, and produces
the final table exactly when both stages are non-empty — so on an error no
later stage's output exists, and on non-empty stages no error is reported. -/
theorem empty_result_error_exits (top6 : List String) (ms : List MatchRecord) :
    (create_ref_team_dataframe top6 ms = .error .filterEmpty ↔
      filterTop6 top6 ms = []) ∧
    (create_ref_team_dataframe top6 ms = .error .expandEmpty ↔
      (filterTop6 top6 ms ≠ [] ∧ expandStage top6 ms = [])) ∧
    (create_ref_team_dataframe top6 ms = .ok (finalStage top6 ms) ↔
      (filterTop6 top6 ms ≠ [] ∧ expandStage top6 ms ≠ [])) ∧
    (∀ out : List StatRow, create_ref_team_dataframe top6 ms = .ok out →
      out = finalStage top6 ms) := by
  refine ⟨?_, ?_, ?_, ?_⟩
  · unfold create_ref_team_dataframe
    by_cases h1 : (filterTop6 top6 ms).isEmpty <;>
      by_cases h2 : (expandStage top6 ms).isEmpty <;>
        simp_all [List.isEmpty_iff]
  · unfold create_ref_team_dataframe
    by_cases h1 : (filterTop6 top6 ms).isEmpty <;>
      by_cases h2 : (expandStage top6 ms).isEmpty <;>
        simp_all [List.isEmpty_iff]
  · unfold create_ref_team_dataframe
    by_cases h1 : (filterTop6 top6 ms).isEmpty <;>
      by_cases h2 : (expandStage top6 ms).isEmpty <;>
        simp_all [List.isEmpty_iff]
  · intro out hok
    exact ((create_ok_iff top6 ms out).mp hok).2.2

/-- C10 (counterexample): pruning a full table twice is not the same as
pruning it once — the first application succeeds and removes the drop-list
columns, so the second application's column drop raises on the first
missing label ("Time"), exactly as pandas `drop` does with its default
`errors='raise'`. -/
theorem prune_twice_differs :
    (prune exTable).bind prune ≠ prune exTable ∧
    (prune exTable).bind prune = .error "Time" ∧
    (prune exTable).isOk = true := by
  have h1 : (prune exTable).bind prune = .error "Time" := rfl
  have h2 : prune exTable = .ok ⟨["HomeTeam"], [[some 0]]⟩ := rfl
  refine ⟨?_, h1, by rw [h2]; rfl⟩
  rw [h1, h2]
  exact fun hc => Except.noConfusion hc

/-- C10 (amended): as written the pruning pipeline is not idempotent — after
one application the drop-list columns are gone and the second column drop
fails with a missing-column error ("Time") — but with missing labels ignored
(pandas `errors='ignore'`), dropping the fixed column list and then dropping
null rows is idempotent for every input table. -/
theorem prune_idempotent_up_to_missing_labels (t t2 : Table) :
    pruneIgnore dropList (pruneIgnore dropList t) = pruneIgnore dropList t ∧
    (prune t = .ok t2 → prune t2 = .error "Time") := by
  refine ⟨pruneIgnore_idem dropList t, ?_⟩
  intro hok
  unfold prune at hok ⊢
  unfold dropLabels at hok ⊢
  cases hfind : dropList.find? (fun l => !(t.header.contains l)) with
  | some l => rw [hfind] at hok; exact absurd hok (by simp [Except.map])
  | none =>
    rw [hfind] at hok
    simp only [Except.map] at hok
    have ht2 : t2 = dropna ⟨t.header.filter (fun c => !(dropList.contains c)),
        t.rows.map (dropRowCols dropList t.header)⟩ := by
      cases hok
      rfl
    have hhead : t2.header = t.header.filter (fun c => !(dropList.contains c)) := by
      rw [ht2]
      rfl
    have hnotime : t2.header.contains "Time" = false := by
      rw [hhead]
      by_contra hc
      rw [Bool.not_eq_false] at hc
      have hmem : ("Time" : String) ∈
          t.header.filter (fun c => !(dropList.contains c)) := by
        simpa using hc
      have := List.of_mem_filter (p := fun c => !(dropList.contains c)) hmem
      rw [Bool.not_eq_true'] at this
      have htime : dropList.contains "Time" = true := by decide
      rw [htime] at this
      cases this
    have hstep : dropList.find? (fun l => !(t2.header.contains l)) = some "Time" := by
      have : dropList = "Time" :: dropList.tail := by decide
      rw [this]
      refine List.find?_cons_of_pos _ ?_
      rw [hnotime]
      rfl
    rw [hstep]
    rfl
